import Mathlib

/-!
Verification development for the CI check-run popover slice of a desktop Git
client (two TypeScript source files: the `CICheckRunPopover` component with the
`donutSVG` / `scale` helpers, and the `CICheckRunLogs` component).

Conventions of the shallow embedding:
* A JS `Map` is modelled as an insertion-ordered association list
  (`List (String × α)`): `Map.get` is the first binding, `Map.set` updates the
  existing binding in place or appends a fresh one.
* TS `string | null` fields become `Option String`; the one field typed
  `string | null | undefined` (a check-run output summary) becomes `JSStrField`,
  which keeps `undefined` and `null` apart.
* Counts are exact rationals (`ℚ`); `value / sum`, `portion === 1`,
  `portion > 0.5` and `0.01` are exact rational operations, the idealisation of
  the JS float arithmetic.
* `radians = (value / sum) * 2π − π/2` is transcendental, so the two trig
  evaluations inside `scale` are abstracted as oracle functions `cosF sinF`
  of the turn fraction `value / sum`; everything else stays executable.
* React render methods return first-order view trees (inductives) recording
  exactly the branch decisions the source makes; callbacks and styling
  props are omitted.
-/

namespace Desktop

/-- A TS `string | null | undefined` value, keeping `undefined` and `null` apart. -/
inductive JSStrField
  | undef
  | null
  | val (s : String)
deriving DecidableEq

/-- Modelled from the spec: `APICheckConclusion` (lib/api, not under src/) — the
conclusion states a GitHub check run may report; the popover source matches on
`Success`, `Failure`, `Canceled`, `ActionRequired` and `TimedOut`. -/
inductive APICheckConclusion
  | ActionRequired
  | Canceled
  | TimedOut
  | Failure
  | Neutral
  | Success
  | Skipped
  | Stale
deriving DecidableEq

/-- Modelled from the spec: `RefCheckOutputType` (lib/ci-checks, not under src/);
the logs component distinguishes exactly `Actions` and `Default` outputs. -/
inductive RefCheckOutputType
  | Actions
  | Default
deriving DecidableEq

/-- Check-run output record (`IRefCheckOutput`): only the fields the two source
files read are modelled (`type`, `text : string | null`, `title : string | null`,
`summary : string | null | undefined`). -/
structure IRefCheckOutput where
  type : RefCheckOutputType
  text : Option String
  title : Option String
  summary : JSStrField
deriving DecidableEq

/-- Check run record (`IRefCheck`): only the fields the two source files read
are modelled (`name`, `conclusion`, `actionsWorkflowRunId?: number`,
`output`, `htmlUrl : string | null`). -/
structure IRefCheck where
  name : String
  conclusion : Option APICheckConclusion
  actionsWorkflowRunId : Option Nat
  output : IRefCheckOutput
  htmlUrl : Option String
deriving DecidableEq

/-- Combined ref check (`ICombinedRefCheck`): the popover only reads `checks`. -/
structure ICombinedRefCheck where
  checks : List IRefCheck
deriving DecidableEq

/-- JS `Map.get` on the association-list model: first binding for the key. -/
def mapGet {α : Type} (m : List (String × α)) (k : String) : Option α :=
  (m.find? (fun p => p.1 == k)).map Prod.snd

/-- JS `Map.set` on the association-list model: a JS `Map` keeps the insertion
position of an existing key and appends a new key at the end. -/
def mapSet {α : Type} (m : List (String × α)) (k : String) (v : α) : List (String × α) :=
  if m.any (fun p => p.1 == k) then m.map (fun p => if p.1 == k then (k, v) else p)
  else m ++ [(k, v)]

/-- `map.set(k, (map.get(k) ?? 0) + 1)` — the counting idiom used both by
`getCombinedCheckSummary` and by the status count map. -/
def bumpKey (m : List (String × Nat)) (k : String) : List (String × Nat) :=
  mapSet m k ((mapGet m k).getD 0 + 1)

namespace CICheckRunLogs

/-- Props of `CICheckRunLogs` (callbacks and `baseHref` omitted: they do not
affect which branch is rendered). -/
structure ICICheckRunLogsProps where
  checkRun : IRefCheck
  loadingActionLogs : Bool
  loadingActionWorkflows : Bool
deriving DecidableEq

/-- `hasActionsWorkflowLogs`: `this.props.checkRun.actionsWorkflowRunId !== undefined`. -/
def hasActionsWorkflowLogs (checkRun : IRefCheck) : Bool :=
  checkRun.actionsWorkflowRunId.isSome

/-- `isNoOutputText`: no actions logs, `Default` output type, and
`output.text === null || output.text.trim() === ''`. -/
def isNoOutputText (checkRun : IRefCheck) (output : IRefCheckOutput) : Bool :=
  !(hasActionsWorkflowLogs checkRun) &&
    (output.type == RefCheckOutputType.Default) &&
    (match output.text with
     | none => true
     | some t => t.trim == "")

/-- `isNoAdditionalInfoToDisplay`: `isNoOutputText` and
`output.summary === undefined || output.summary === null || output.summary.trim() === ''`. -/
def isNoAdditionalInfoToDisplay (checkRun : IRefCheck) (output : IRefCheckOutput) : Bool :=
  isNoOutputText checkRun output &&
    (match output.summary with
     | JSStrField.undef => true
     | JSStrField.null => true
     | JSStrField.val s => s.trim == "")

/-- `getNonActionsOutputMD`: concatenation of the (blank-filtered) summary and
the trimmed non-Actions text; `null` when the concatenation is empty. -/
def getNonActionsOutputMD (output : IRefCheckOutput) : Option String :=
  let mainOutput :=
    match output.text with
    | some t => if output.type == RefCheckOutputType.Actions then "" else t.trim
    | none => ""
  let summaryOutput :=
    match output.summary with
    | JSStrField.val s => if s.trim == "" then "" else s
    | JSStrField.null => ""
    | JSStrField.undef => ""
  let combinedOutput := summaryOutput ++ mainOutput
  if combinedOutput == "" then none else some combinedOutput

/-- `renderNonActionsLogOutput`: `null` for `Actions` output or empty markdown,
otherwise the sandboxed markdown content. -/
def renderNonActionsLogOutput (output : IRefCheckOutput) : Option String :=
  match getNonActionsOutputMD output with
  | none => none
  | some markdown =>
      if output.type == RefCheckOutputType.Actions then none else some markdown

/-- The meta-output `<div>` of `renderMetaOutput`: which title is shown and
which summary markdown is rendered. -/
structure MetaOutput where
  displayTitle : Bool
  title : Option String
  renderSummary : Bool
  cleanSummary : String
deriving DecidableEq

/-- `renderMetaOutput`: `null` when actions workflow logs exist; otherwise the
meta `<div>` with the title (unless blank or redundant with the check run name,
compared lower-cased — modelled by `String.toLower`) and, for `Actions` output
types only, the trimmed non-blank summary. -/
def renderMetaOutput (checkRun : IRefCheck) (output : IRefCheckOutput)
    (checkRunName : String) : Option MetaOutput :=
  if hasActionsWorkflowLogs checkRun then none
  else
    let displayTitle :=
      match output.title with
      | none => false
      | some t => (t.trim != "") && (t.trim.toLower != checkRunName.trim.toLower)
    let cleanSummary :=
      match output.summary with
      | JSStrField.val s => if s.trim == "" then "" else s.trim
      | JSStrField.null => ""
      | JSStrField.undef => ""
    let renderSummary :=
      (cleanSummary != "") && (output.type == RefCheckOutputType.Actions)
    some ⟨displayTitle, output.title, renderSummary, cleanSummary⟩

/-- The first child of the logs `<div>`: either the
"No additional information to display." placeholder or the meta output. -/
inductive LogsContent
  | emptyLogOutput
  | metaOutput (m : Option MetaOutput)
deriving DecidableEq

/-- The `logsOutput` element: actions log view or sandboxed markdown. -/
inductive LogsOutputView
  | actionsLogs (loadingLogs : Bool)
  | nonActions (markdown : Option String)
deriving DecidableEq

/-- Result of `CICheckRunLogs.render`: the "Loading…" placeholder, or the logs
`<div>` (content, logs output, and whether the `actions` class is set). -/
inductive LogsRender
  | loadingLogs
  | logs (content : LogsContent) (output : LogsOutputView) (actionsClass : Bool)
deriving DecidableEq

/-- `CICheckRunLogs.render`. -/
def render (props : ICICheckRunLogsProps) : LogsRender :=
  if props.loadingActionWorkflows then LogsRender.loadingLogs
  else
    let logsOutput :=
      if hasActionsWorkflowLogs props.checkRun then
        LogsOutputView.actionsLogs props.loadingActionLogs
      else
        LogsOutputView.nonActions (renderNonActionsLogOutput props.checkRun.output)
    LogsRender.logs
      (if isNoAdditionalInfoToDisplay props.checkRun props.checkRun.output then
        LogsContent.emptyLogOutput
       else
        LogsContent.metaOutput
          (renderMetaOutput props.checkRun props.checkRun.output props.checkRun.name))
      logsOutput
      (hasActionsWorkflowLogs props.checkRun)

end CICheckRunLogs

/-! ## The donut chart (`donutSVG` and `scale`, module-level functions) -/

/-- One element of the SVG path data array `d` built by `donutSVG`: the source
pushes command letters as strings and coordinates/flags as numbers, then joins
them with spaces (the join is a trivial serialisation and is left out). -/
inductive PathElem
  | str (s : String)
  | num (q : ℚ)
deriving DecidableEq

/-- One entry of the `paths` array returned by `donutSVG`. -/
structure DonutPath where
  name : String
  path : List PathElem
deriving DecidableEq

/-- The record returned by `donutSVG`. -/
structure DonutResult where
  paths : List DonutPath
  height : ℚ
  width : ℚ
  className : String
deriving DecidableEq

/-- `scale` from the source:
`radians = (value / sum) * 2π − π/2`, result
`[radius * cos(radians) + cxy, radius * sin(radians) + cxy]`.
The radians are transcendental, so `cosF` and `sinF` abstract
`cos`/`sin` of those radians as functions of the turn fraction `value / sum`. -/
def scale (cosF sinF : ℚ → ℚ) (value radius cxy sum : ℚ) : List ℚ :=
  [radius * cosF (value / sum) + cxy, radius * sinF (value / sum) + cxy]

/-- JS `Array.prototype.reduce` with no initial accumulator: throws on an empty
array (`none` here), otherwise folds from the first element. -/
def reduceSum : List ℚ → Option ℚ
  | [] => none
  | x :: xs => some (xs.foldl (fun sum v => sum + v) x)

/-- The degenerate full-circle path of `donutSVG` (`portion === 1`):
`M cx y1  A outer outer 0 1 1 x2 y1  L x2 y2  A inner inner 0 1 0 cx y2`
with `x2 = cx - 0.01`, `y1 = cy - outerRadius`, `y2 = cy - innerRadius`. -/
def fullCircleD (outerRadius innerRadius cx cy : ℚ) : List PathElem :=
  [PathElem.str "M", PathElem.num cx, PathElem.num (cy - outerRadius),
   PathElem.str "A", PathElem.num outerRadius, PathElem.num outerRadius,
   PathElem.num 0, PathElem.num 1, PathElem.num 1,
   PathElem.num (cx - 1/100), PathElem.num (cy - outerRadius),
   PathElem.str "L", PathElem.num (cx - 1/100), PathElem.num (cy - innerRadius),
   PathElem.str "A", PathElem.num innerRadius, PathElem.num innerRadius,
   PathElem.num 0, PathElem.num 1, PathElem.num 0,
   PathElem.num cx, PathElem.num (cy - innerRadius)]

/-- The general annular-arc path of `donutSVG`: outer arc from
`scale(cumulative)` to `scale(cumulative + value)`, line to the inner radius,
inner arc back; both arcs carry large-arc flag `portion > 0.5 ? 1 : 0`. -/
def generalArcD (cosF sinF : ℚ → ℚ) (outerRadius innerRadius cx sum cumulative value : ℚ) :
    List PathElem :=
  [PathElem.str "M"]
    ++ (scale cosF sinF cumulative outerRadius cx sum).map PathElem.num
    ++ [PathElem.str "A", PathElem.num outerRadius, PathElem.num outerRadius,
        PathElem.num 0, PathElem.num (if value / sum > 1/2 then 1 else 0), PathElem.num 1]
    ++ (scale cosF sinF (cumulative + value) outerRadius cx sum).map PathElem.num
    ++ [PathElem.str "L"]
    ++ (scale cosF sinF (cumulative + value) innerRadius cx sum).map PathElem.num
    ++ [PathElem.str "A", PathElem.num innerRadius, PathElem.num innerRadius,
        PathElem.num 0, PathElem.num (if value / sum > 1/2 then 1 else 0), PathElem.num 0]
    ++ (scale cosF sinF cumulative innerRadius cx sum).map PathElem.num

/-- The `for (const [name, value] of donutValuesMap)` loop of `donutSVG`,
carrying the `cumulative` accumulator: zero values are skipped, `portion === 1`
takes the full-circle path (and does not advance `cumulative`, matching the
source's `continue` before `cumulative += value`), otherwise the general arc. -/
def donutLoop (cosF sinF : ℚ → ℚ) (outerRadius innerRadius cx cy sum : ℚ) :
    List (String × ℚ) → ℚ → List DonutPath
  | [], _ => []
  | (name, value) :: rest, cumulative =>
      if value = 0 then
        donutLoop cosF sinF outerRadius innerRadius cx cy sum rest cumulative
      else if value / sum = 1 then
        ⟨name, fullCircleD outerRadius innerRadius cx cy⟩ ::
          donutLoop cosF sinF outerRadius innerRadius cx cy sum rest cumulative
      else
        ⟨name, generalArcD cosF sinF outerRadius innerRadius cx sum cumulative value⟩ ::
          donutLoop cosF sinF outerRadius innerRadius cx cy sum rest (cumulative + value)

/-- `donutSVG`: the source defaults `outerRadius = 15`, `innerRadius = 9` (all
call sites use the defaults, passed explicitly here). The value sum is reduced
with no initial accumulator, so an empty map is a thrown `TypeError` (`none`). -/
def donutSVG (cosF sinF : ℚ → ℚ) (donutValuesMap : List (String × ℚ))
    (outerRadius innerRadius : ℚ) : Option DonutResult :=
  let diameter := outerRadius * 2
  match reduceSum (donutValuesMap.map Prod.snd) with
  | none => none
  | some sum =>
      let cx := diameter / 2
      let cy := cx
      some { paths := donutLoop cosF sinF outerRadius innerRadius cx cy sum donutValuesMap 0,
             height := diameter,
             width := diameter,
             className := "donut-chart" }

/-- Modelled from the spec: `getCheckStatusCountMap` (lib/ci-checks, not under
src/) builds the donut's input, the "map category→count" over the check runs:
each run falls in one status category (abstracted as `catOf`) and the JS `Map`
counts runs per category in first-occurrence order. -/
def getCheckStatusCountMap (catOf : IRefCheck → String) (checkRuns : List IRefCheck) :
    List (String × Nat) :=
  checkRuns.foldl (fun m c => bumpKey m (catOf c)) []

namespace CICheckRunPopover

/-- `ICICheckRunPopoverState`. -/
structure ICICheckRunPopoverState where
  checkRuns : List IRefCheck
  checkRunSummary : String
  loadingActionLogs : Bool
  loadingActionWorkflows : Bool
deriving DecidableEq

/-- The state assigned in the constructor. -/
def initialState : ICICheckRunPopoverState :=
  { checkRuns := []
    checkRunSummary := ""
    loadingActionLogs := true
    loadingActionWorkflows := true }

/-- `getCommitRef`. -/
def getCommitRef (prNumber : Nat) : String :=
  "refs/pull/" ++ toString prNumber ++ "/head"

/-- The `conclusionMap` built by `getCombinedCheckSummary`: a JS `Map` counting
checks per conclusion adjective. `adjOf` abstracts
`check => getCheckRunConclusionAdjective(check.conclusion).toLocaleLowerCase()`
(the adjective table lives in lib/ci-checks, not under src/). -/
def conclusionCounts (adjOf : Option APICheckConclusion → String)
    (checks : List IRefCheck) : List (String × Nat) :=
  checks.foldl (fun m check => bumpKey m (adjOf check.conclusion)) []

/-- `getCombinedCheckSummary`. In the multi-adjective branch the source returns
``${output.slice(0,-1).join(', ')}, and ${output.slice(-1)} checks``; the
template-stringified one-element slice is its single element, modelled as the
comma-join of `output.drop (output.length - 1)`. The `[]` case of the inner
match is unreachable for non-empty `checks` (the JS code would throw there). -/
def getCombinedCheckSummary (adjOf : Option APICheckConclusion → String)
    (combinedCheck : Option ICombinedRefCheck) : String :=
  match combinedCheck with
  | none => ""
  | some cc =>
      if cc.checks.length = 0 then ""
      else
        let summaryArray := conclusionCounts adjOf cc.checks
        if 1 < summaryArray.length then
          let output := summaryArray.map (fun p => toString p.2 ++ " " ++ p.1)
          String.intercalate ", " output.dropLast ++ ", and " ++
            String.intercalate "," (output.drop (output.length - 1)) ++ " checks"
        else
          match summaryArray with
          | [] => ""
          | p :: _ =>
              toString p.2 ++ " " ++ p.1 ++ " " ++ (if 1 < p.2 then "checks" else "check")

/-- `onStatus`: the `setState` performed for a delivered combined check. -/
def onStatus (adjOf : Option APICheckConclusion → String)
    (check : Option ICombinedRefCheck) (s : ICICheckRunPopoverState) :
    ICICheckRunPopoverState :=
  let checkRuns := match check with
    | some c => c.checks
    | none => []
  { s with
    checkRuns := checkRuns
    checkRunSummary := getCombinedCheckSummary adjOf check
    loadingActionWorkflows := check.isNone
    loadingActionLogs := check.isNone }

/-- `onViewCheckDetails`: the URL passed to `dispatcher.openInBrowser`, if any.
When `checkRun.htmlUrl` is null the fallback interpolates `repository.htmlURL`,
which the early return guarantees is non-null at that point. -/
def onViewCheckDetails (repositoryHtmlURL : Option String) (prNumber : Nat)
    (checkRun : IRefCheck) : Option String :=
  if checkRun.htmlUrl = none ∧ repositoryHtmlURL = none then none
  else
    some (match checkRun.htmlUrl with
      | some u => u
      | none => repositoryHtmlURL.getD "null" ++ "/pull/" ++ toString prNumber)

/-- Result of `renderCompletenessIndicator`: spinner, the all-success icon, the
all-failure icon, or the donut chart SVG. -/
inductive CompletenessIndicator
  | spinner
  | successIcon
  | errorIcon
  | donutChart (res : DonutResult)
deriving DecidableEq

/-- `renderCompletenessIndicator`. `none` models a thrown JS exception (only
possible if `donutSVG` were handed an empty map). -/
def renderCompletenessIndicator (catOf : IRefCheck → String) (cosF sinF : ℚ → ℚ)
    (checkRuns : List IRefCheck) : Option CompletenessIndicator :=
  if checkRuns.length = 0 then some CompletenessIndicator.spinner
  else
    let allSucccess :=
      !(checkRuns.any fun v => decide (v.conclusion ≠ some APICheckConclusion.Success))
    if allSucccess then some CompletenessIndicator.successIcon
    else
      let allFailure :=
        !(checkRuns.any fun v =>
          decide (v.conclusion = none) ||
          !(decide (v.conclusion ∈
            [some APICheckConclusion.Failure, some APICheckConclusion.Canceled,
             some APICheckConclusion.ActionRequired, some APICheckConclusion.TimedOut])))
      if allFailure then some CompletenessIndicator.errorIcon
      else
        (donutSVG cosF sinF
          ((getCheckStatusCountMap catOf checkRuns).map fun p => (p.1, (p.2 : ℚ)))
          15 9).map CompletenessIndicator.donutChart

/-! ### Subscription lifecycle

The dispatcher is a black box; what matters for the popover is which dispatcher
calls it makes and which status subscriptions targeting this component are
alive.  `SubWorld` records both: `active` is the list of live subscription
handles, `calls` the call trace (the `repository` and `branchName` props are
fixed per component and omitted from the trace). -/

/-- A dispatcher call made by the popover. -/
inductive DispCall
  | tryGetCall (ref : String)
  | subscribeCall (ref : String)
  | disposeCall (id : Nat)
deriving DecidableEq

/-- Dispatcher-side view: live subscriptions to this component plus call trace. -/
structure SubWorld where
  nextId : Nat
  active : List Nat
  calls : List DispCall
deriving DecidableEq

/-- Component instance: React state plus the private `statusSubscription` field. -/
structure PopoverComponent where
  state : ICICheckRunPopoverState
  statusSubscription : Option Nat
deriving DecidableEq

/-- A freshly constructed component (`statusSubscription = null`, constructor state). -/
def initialComponent : PopoverComponent :=
  { state := initialState, statusSubscription := none }

/-- The dispatcher world before any call. -/
def initialWorld : SubWorld :=
  { nextId := 0, active := [], calls := [] }

/-- `dispatcher.subscribeToCommitStatus`: returns a fresh disposable handle. -/
def subscribeToCommitStatus (w : SubWorld) (ref : String) : Nat × SubWorld :=
  (w.nextId,
   { nextId := w.nextId + 1
     active := w.nextId :: w.active
     calls := w.calls ++ [CICheckRunPopover.DispCall.subscribeCall ref] })

/-- `IDisposable.dispose` on a subscription handle. -/
def disposeSubscription (w : SubWorld) (id : Nat) : SubWorld :=
  { w with
    active := w.active.erase id
    calls := w.calls ++ [DispCall.disposeCall id] }

/-- `dispatcher.tryGetCommitStatus` (the returned combined check is chosen by
the environment and threaded separately). -/
def tryGetCommitStatus (w : SubWorld) (ref : String) : SubWorld :=
  { w with calls := w.calls ++ [CICheckRunPopover.DispCall.tryGetCall ref] }

/-- `unsubscribe`: dispose the subscription if one exists and null the field. -/
def unsubscribe (c : PopoverComponent) (w : SubWorld) : PopoverComponent × SubWorld :=
  match c.statusSubscription with
  | some id => ({ c with statusSubscription := none }, disposeSubscription w id)
  | none => (c, w)

/-- `subscribe`: always `unsubscribe()` first, then store the new handle. -/
def subscribe (pr : Nat) (c : PopoverComponent) (w : SubWorld) :
    PopoverComponent × SubWorld :=
  let cw := unsubscribe c w
  let iw := subscribeToCommitStatus cw.2 (getCommitRef pr)
  ({ cw.1 with statusSubscription := some iw.1 }, iw.2)

/-- `componentDidMount`: `tryGetCommitStatus` for `refs/pull/<pr>/head`, apply
the result through `onStatus`, then `subscribe()`. -/
def componentDidMount (adjOf : Option APICheckConclusion → String) (pr : Nat)
    (res : Option ICombinedRefCheck) (c : PopoverComponent) (w : SubWorld) :
    PopoverComponent × SubWorld :=
  let w1 := tryGetCommitStatus w (getCommitRef pr)
  let c1 := { c with state := onStatus adjOf res c.state }
  subscribe pr c1 w1

/-- `componentWillUnmount`: just `unsubscribe()`. -/
def componentWillUnmount (c : PopoverComponent) (w : SubWorld) :
    PopoverComponent × SubWorld :=
  unsubscribe c w

/-- Delivery of a pushed status update: possible only while the component holds
a live subscription; it re-runs `onStatus` on the component state. -/
inductive DeliverStep (adjOf : Option APICheckConclusion → String) :
    PopoverComponent × SubWorld → PopoverComponent × SubWorld → Prop
  | mk (res : Option ICombinedRefCheck) (s : PopoverComponent × SubWorld) :
      s.1.statusSubscription.isSome = true →
      DeliverStep adjOf s ({ s.1 with state := onStatus adjOf res s.1.state }, s.2)

/-- The component's lifecycle step relation: mount, status delivery, unmount. -/
inductive PopoverStep (adjOf : Option APICheckConclusion → String) (pr : Nat) :
    PopoverComponent × SubWorld → PopoverComponent × SubWorld → Prop
  | mount (res : Option ICombinedRefCheck) (s : PopoverComponent × SubWorld) :
      PopoverStep adjOf pr s (componentDidMount adjOf pr res s.1 s.2)
  | deliver (s t : PopoverComponent × SubWorld) :
      DeliverStep adjOf s t → PopoverStep adjOf pr s t
  | unmount (s : PopoverComponent × SubWorld) :
      PopoverStep adjOf pr s (componentWillUnmount s.1 s.2)

/-- The single-subscription invariant: the live subscriptions to this component
are exactly the one stored in `statusSubscription` (if any). -/
def SubInv (s : PopoverComponent × SubWorld) : Prop :=
  s.2.active = s.1.statusSubscription.toList

end CICheckRunPopover

/-! ## Declarative descriptions used by the theorems -/

/-- Declarative description of the donut segments for a list of nonzero-count
entries: the segment of each entry starts at the running prefix sum of the
previous entries' counts (the claim's "cumulative"), full circle at share 1. -/
def segsOf (cosF sinF : ℚ → ℚ) (outerRadius innerRadius cx cy sum : ℚ) :
    List (String × ℚ) → ℚ → List DonutPath
  | [], _ => []
  | (name, value) :: rest, cumulative =>
      (if value / sum = 1 then
        (⟨name, fullCircleD outerRadius innerRadius cx cy⟩ : DonutPath)
       else
        ⟨name, generalArcD cosF sinF outerRadius innerRadius cx sum cumulative value⟩) ::
        segsOf cosF sinF outerRadius innerRadius cx cy sum rest (cumulative + value)

/-- The distinct elements of a list in first-occurrence order, skipping the ones
already in `seen`: the key order a JS `Map` ends up with after repeated `set`s. -/
def dedupAcc (seen : List String) : List String → List String
  | [] => []
  | a :: rest =>
      if a ∈ seen then dedupAcc seen rest
      else a :: dedupAcc (seen ++ [a]) rest

/-! ## Lemmas about the donut chart -/

lemma foldl_add_eq (x : ℚ) (xs : List ℚ) :
    xs.foldl (fun sum v => sum + v) x = x + xs.sum := by
  induction xs generalizing x with
  | nil => simp
  | cons a l ih => simp [List.foldl_cons, ih, add_assoc]

lemma donutSVG_cons (cosF sinF : ℚ → ℚ) (outerRadius innerRadius : ℚ)
    (x : String × ℚ) (xs : List (String × ℚ)) :
    donutSVG cosF sinF (x :: xs) outerRadius innerRadius =
      some { paths := donutLoop cosF sinF outerRadius innerRadius
                        (outerRadius * 2 / 2) (outerRadius * 2 / 2)
                        (((x :: xs).map Prod.snd).sum) (x :: xs) 0,
             height := outerRadius * 2,
             width := outerRadius * 2,
             className := "donut-chart" } := by
  simp [donutSVG, reduceSum, foldl_add_eq]

lemma donutLoop_all_zero (cosF sinF : ℚ → ℚ) (outerRadius innerRadius cx cy S : ℚ)
    (l : List (String × ℚ)) (h : ∀ p ∈ l, p.2 = 0) (c : ℚ) :
    donutLoop cosF sinF outerRadius innerRadius cx cy S l c = [] := by
  induction l generalizing c with
  | nil => rfl
  | cons p rest ih =>
      obtain ⟨n, v⟩ := p
      have hv : v = 0 := h (n, v) (List.mem_cons_self _ _)
      simp only [donutLoop, hv, if_pos rfl]
      exact ih (fun q hq => h q (List.mem_cons_of_mem _ hq)) c

lemma sum_map_snd_nonneg (l : List (String × ℚ)) (h : ∀ p ∈ l, 0 ≤ p.2) :
    0 ≤ (l.map Prod.snd).sum := by
  refine List.sum_nonneg ?_
  intro x hx
  obtain ⟨q, hq, rfl⟩ := List.mem_map.mp hx
  exact h q hq

lemma donutLoop_cons (cosF sinF : ℚ → ℚ) (outerRadius innerRadius cx cy S : ℚ)
    (n : String) (v : ℚ) (rest : List (String × ℚ)) (c : ℚ) :
    donutLoop cosF sinF outerRadius innerRadius cx cy S ((n, v) :: rest) c =
      if v = 0 then donutLoop cosF sinF outerRadius innerRadius cx cy S rest c
      else if v / S = 1 then
        ⟨n, fullCircleD outerRadius innerRadius cx cy⟩ ::
          donutLoop cosF sinF outerRadius innerRadius cx cy S rest c
      else
        ⟨n, generalArcD cosF sinF outerRadius innerRadius cx S c v⟩ ::
          donutLoop cosF sinF outerRadius innerRadius cx cy S rest (c + v) := rfl

lemma segsOf_cons (cosF sinF : ℚ → ℚ) (outerRadius innerRadius cx cy S : ℚ)
    (n : String) (v : ℚ) (rest : List (String × ℚ)) (c : ℚ) :
    segsOf cosF sinF outerRadius innerRadius cx cy S ((n, v) :: rest) c =
      (if v / S = 1 then
        (⟨n, fullCircleD outerRadius innerRadius cx cy⟩ : DonutPath)
       else
        ⟨n, generalArcD cosF sinF outerRadius innerRadius cx S c v⟩) ::
        segsOf cosF sinF outerRadius innerRadius cx cy S rest (c + v) := rfl

lemma filter_nonzero_cons (p : String × ℚ) (l : List (String × ℚ)) :
    ((p :: l).filter fun q => decide (q.2 ≠ 0)) =
      if p.2 = 0 then l.filter (fun q => decide (q.2 ≠ 0))
      else p :: l.filter (fun q => decide (q.2 ≠ 0)) := by
  by_cases h : p.2 = 0 <;> simp [List.filter_cons, h]

lemma donutLoop_eq_segsOf (cosF sinF : ℚ → ℚ) (outerRadius innerRadius cx cy S : ℚ)
    (hS : 0 < S) (l : List (String × ℚ)) (c : ℚ)
    (hnn : ∀ p ∈ l, 0 ≤ p.2) (hc : 0 ≤ c)
    (hle : c + (l.map Prod.snd).sum ≤ S) :
    donutLoop cosF sinF outerRadius innerRadius cx cy S l c =
      segsOf cosF sinF outerRadius innerRadius cx cy S
        (l.filter fun p => decide (p.2 ≠ 0)) c := by
  induction l generalizing c with
  | nil => rfl
  | cons p rest ih =>
      obtain ⟨n, v⟩ := p
      have hv0 : 0 ≤ v := hnn (n, v) (List.mem_cons_self _ _)
      have hrest_nn : ∀ q ∈ rest, 0 ≤ q.2 := fun q hq => hnn q (List.mem_cons_of_mem _ hq)
      have hsum_rest : 0 ≤ (rest.map Prod.snd).sum := sum_map_snd_nonneg rest hrest_nn
      have hle' : c + (v + (rest.map Prod.snd).sum) ≤ S := by simpa using hle
      rw [donutLoop_cons, filter_nonzero_cons]
      by_cases hv : v = 0
      · rw [if_pos hv, if_pos hv]
        exact ih c hrest_nn hc (by rw [hv] at hle'; linarith)
      · rw [if_neg hv, if_neg hv, segsOf_cons]
        by_cases hport : v / S = 1
        · have hvS : v = S := (div_eq_one_iff_eq (ne_of_gt hS)).mp hport
          have hc0 : c = 0 := le_antisymm (by linarith) hc
          have hrest0 : (rest.map Prod.snd).sum = 0 := le_antisymm (by linarith) hsum_rest
          have hall0 : ∀ q ∈ rest, q.2 = 0 := by
            intro q hq
            exact List.all_zero_of_le_zero_le_of_sum_eq_zero
              (fun x hx => by
                obtain ⟨r, hr, rfl⟩ := List.mem_map.mp hx
                exact hrest_nn r hr)
              hrest0 (List.mem_map.mpr ⟨q, hq, rfl⟩)
          have hfilter : rest.filter (fun q => decide (q.2 ≠ 0)) = [] := by
            rw [List.filter_eq_nil_iff]
            intro q hq
            simp [hall0 q hq]
          rw [if_pos hport, if_pos hport, hfilter,
            donutLoop_all_zero cosF sinF outerRadius innerRadius cx cy S rest hall0 c]
          rfl
        · rw [if_neg hport, if_neg hport]
          exact congrArg _ (ih (c + v) hrest_nn (by linarith) (by linarith))

lemma segsOf_length (cosF sinF : ℚ → ℚ) (outerRadius innerRadius cx cy S : ℚ)
    (l : List (String × ℚ)) (c : ℚ) :
    (segsOf cosF sinF outerRadius innerRadius cx cy S l c).length = l.length := by
  induction l generalizing c with
  | nil => rfl
  | cons p rest ih =>
      obtain ⟨n, v⟩ := p
      simp [segsOf, ih]

lemma segsOf_map_name (cosF sinF : ℚ → ℚ) (outerRadius innerRadius cx cy S : ℚ)
    (l : List (String × ℚ)) (c : ℚ) :
    (segsOf cosF sinF outerRadius innerRadius cx cy S l c).map DonutPath.name =
      l.map Prod.fst := by
  induction l generalizing c with
  | nil => rfl
  | cons p rest ih =>
      obtain ⟨n, v⟩ := p
      by_cases hport : v / S = 1 <;> simp [segsOf, hport, ih]

lemma filter_nonzero_singleton (entries : List (String × ℚ)) (n : String) (v : ℚ)
    (hnn : ∀ p ∈ entries, 0 ≤ p.2) (hmem : (n, v) ∈ entries)
    (hv : v = (entries.map Prod.snd).sum) (hvpos : 0 < v) :
    (entries.filter fun p => decide (p.2 ≠ 0)) = [(n, v)] := by
  induction entries with
  | nil => cases hmem
  | cons q rest ih =>
      obtain ⟨m, w⟩ := q
      have hw0 : 0 ≤ w := hnn (m, w) (List.mem_cons_self _ _)
      have hrest_nn : ∀ p ∈ rest, 0 ≤ p.2 := fun p hp => hnn p (List.mem_cons_of_mem _ hp)
      have hsum_rest : 0 ≤ (rest.map Prod.snd).sum := sum_map_snd_nonneg rest hrest_nn
      have hv' : v = w + (rest.map Prod.snd).sum := by simpa using hv
      rw [filter_nonzero_cons]
      rcases List.mem_cons.mp hmem with heq | hmem'
      · obtain ⟨rfl, rfl⟩ := Prod.mk.injEq m w n v ▸ heq.symm
        have hrest0 : (rest.map Prod.snd).sum = 0 := by linarith
        have hall0 : ∀ p ∈ rest, p.2 = 0 := by
          intro p hp
          exact List.all_zero_of_le_zero_le_of_sum_eq_zero
            (fun x hx => by
              obtain ⟨r, hr, rfl⟩ := List.mem_map.mp hx
              exact hrest_nn r hr)
            hrest0 (List.mem_map.mpr ⟨p, hp, rfl⟩)
        have hfilter : rest.filter (fun p => decide (p.2 ≠ 0)) = [] := by
          rw [List.filter_eq_nil_iff]
          intro p hp
          simp [hall0 p hp]
        rw [if_neg (by simp; linarith), hfilter]
      · have hvle : v ≤ (rest.map Prod.snd).sum :=
          List.single_le_sum
            (fun x hx => by
              obtain ⟨r, hr, rfl⟩ := List.mem_map.mp hx
              exact hrest_nn r hr)
            v (List.mem_map.mpr ⟨(n, v), hmem', rfl⟩)
        have hw : w = 0 := le_antisymm (by linarith) hw0
        rw [if_pos hw]
        exact ih hrest_nn hmem' (by linarith)

lemma getCheckStatusCountMap_ne_nil (catOf : IRefCheck → String)
    (checkRuns : List IRefCheck) (hne : checkRuns ≠ []) :
    getCheckStatusCountMap catOf checkRuns ≠ [] := by
  have hstep : ∀ (l : List IRefCheck) (m : List (String × Nat)), m ≠ [] →
      l.foldl (fun m c => bumpKey m (catOf c)) m ≠ [] := by
    intro l
    induction l with
    | nil => exact fun m hm => hm
    | cons r rs ih =>
        intro m hm
        refine ih (bumpKey m (catOf r)) ?_
        unfold bumpKey mapSet
        by_cases h : m.any (fun p => p.1 == catOf r)
        · obtain ⟨x, xs, rfl⟩ := List.exists_cons_of_ne_nil hm
          simp [h]
        · simp [h]
  obtain ⟨r, rs, rfl⟩ := List.exists_cons_of_ne_nil hne
  unfold getCheckStatusCountMap
  rw [List.foldl_cons]
  refine hstep rs (bumpKey [] (catOf r)) ?_
  unfold bumpKey mapSet
  simp

lemma segsOf_get? (cosF sinF : ℚ → ℚ) (outerRadius innerRadius cx cy S : ℚ)
    (l : List (String × ℚ)) (c : ℚ) (i : Nat) :
    (segsOf cosF sinF outerRadius innerRadius cx cy S l c).get? i =
      (l.get? i).map (fun p =>
        if p.2 / S = 1 then
          (⟨p.1, fullCircleD outerRadius innerRadius cx cy⟩ : DonutPath)
        else
          ⟨p.1, generalArcD cosF sinF outerRadius innerRadius cx S
            (c + ((l.take i).map Prod.snd).sum) p.2⟩) := by
  induction l generalizing c i with
  | nil => simp [segsOf]
  | cons p rest ih =>
      obtain ⟨n, v⟩ := p
      cases i with
      | zero => simp [segsOf_cons]
      | succ j =>
          simp only [segsOf_cons, List.get?_cons_succ]
          rw [ih (c + v) j]
          cases hrest : rest.get? j with
          | none => rfl
          | some q =>
              simp only [Option.map_some, List.take_succ_cons, List.map_cons,
                List.sum_cons, add_assoc]

/-! ## Claim theorems: the donut chart -/

/-- C1: for a counts map with positive sum, `donutSVG` emits exactly one path
segment per category with a nonzero count, in the map's iteration order (names
and length conjuncts); each segment whose share `value / sum` is strictly below
1 is the annular arc `generalArcD` whose boundary arcs run from
`scale cumulative` to `scale (cumulative + value)` with
`cumulative = ` the sum of the preceding nonzero counts — so the arcs are
contiguous and span the cumulative fraction interval of the circle — and whose
large-arc flags are `1` exactly when `value / sum > 1/2` (the `if` inside
`generalArcD`). -/
theorem donutSVG_arc_segments (cosF sinF : ℚ → ℚ) (entries : List (String × ℚ))
    (hnn : ∀ p ∈ entries, 0 ≤ p.2)
    (hpos : 0 < (entries.map Prod.snd).sum) :
    ∃ res, donutSVG cosF sinF entries 15 9 = some res ∧
      res.paths.map DonutPath.name =
        (entries.filter fun p => decide (p.2 ≠ 0)).map Prod.fst ∧
      res.paths.length = (entries.filter fun p => decide (p.2 ≠ 0)).length ∧
      ∀ (i : Nat) (n : String) (v : ℚ),
        (entries.filter fun p => decide (p.2 ≠ 0)).get? i = some (n, v) →
        v / (entries.map Prod.snd).sum < 1 →
        res.paths.get? i = some
          ⟨n, generalArcD cosF sinF 15 9 15 ((entries.map Prod.snd).sum)
            ((((entries.filter fun p => decide (p.2 ≠ 0)).take i).map Prod.snd).sum) v⟩ := by
  have hne : entries ≠ [] := by
    rintro rfl
    simp at hpos
  obtain ⟨x, xs, rfl⟩ := List.exists_cons_of_ne_nil hne
  rw [donutSVG_cons]
  have hcx : (15 : ℚ) * 2 / 2 = 15 := by norm_num
  rw [hcx]
  have hmain : donutLoop cosF sinF 15 9 15 15 (((x :: xs).map Prod.snd).sum) (x :: xs) 0 =
      segsOf cosF sinF 15 9 15 15 (((x :: xs).map Prod.snd).sum)
        ((x :: xs).filter fun p => decide (p.2 ≠ 0)) 0 :=
    donutLoop_eq_segsOf cosF sinF 15 9 15 15 _ hpos (x :: xs) 0 hnn le_rfl (by simp)
  refine ⟨_, rfl, ?_, ?_, ?_⟩
  · dsimp only
    rw [hmain, segsOf_map_name]
  · dsimp only
    rw [hmain, segsOf_length]
  · intro i n v hget hshare
    dsimp only
    rw [hmain, segsOf_get?, hget]
    simp only [Option.map_some']
    rw [if_neg (ne_of_lt hshare), zero_add]

/-- Witness for C1: the two-category map `a ↦ 1, b ↦ 1` satisfies the
hypotheses, and the theorem instantiates at it. -/
theorem donutSVG_arc_segments_witness :
    (∀ p ∈ [("a", (1:ℚ)), ("b", 1)], 0 ≤ p.2) ∧
    (0 < (([("a", (1:ℚ)), ("b", 1)].map Prod.snd).sum)) ∧
    (∃ res, donutSVG (fun _ => 0) (fun _ => 0) [("a", (1:ℚ)), ("b", 1)] 15 9 = some res ∧
      res.paths.map DonutPath.name =
        ([("a", (1:ℚ)), ("b", 1)].filter fun p => decide (p.2 ≠ 0)).map Prod.fst ∧
      res.paths.length = ([("a", (1:ℚ)), ("b", 1)].filter fun p => decide (p.2 ≠ 0)).length ∧
      ∀ (i : Nat) (n : String) (v : ℚ),
        ([("a", (1:ℚ)), ("b", 1)].filter fun p => decide (p.2 ≠ 0)).get? i = some (n, v) →
        v / (([("a", (1:ℚ)), ("b", 1)].map Prod.snd).sum) < 1 →
        res.paths.get? i = some
          ⟨n, generalArcD (fun _ => 0) (fun _ => 0) 15 9 15
            (([("a", (1:ℚ)), ("b", 1)].map Prod.snd).sum)
            (((([("a", (1:ℚ)), ("b", 1)].filter fun p => decide (p.2 ≠ 0)).take i).map
              Prod.snd).sum) v⟩) :=
  ⟨by norm_num, by norm_num,
   donutSVG_arc_segments (fun _ => 0) (fun _ => 0) [("a", 1), ("b", 1)]
     (by norm_num) (by norm_num)⟩

/-- C2: when a single category's count equals the whole (positive) sum,
`donutSVG` takes the degenerate full-circle fallback for it: the single emitted
path is `fullCircleD`, made of an outer arc and an inner arc that both carry
large-arc flag 1, and whose endpoint is `x2 = cx - 0.01`, i.e. offset 0.01 to
the left of the start (spelled out below for the default radii, where `cx = 15`,
`y1 = 0` and `y2 = 6`). -/
theorem donutSVG_full_circle (cosF sinF : ℚ → ℚ) (entries : List (String × ℚ))
    (n : String) (v : ℚ) (hnn : ∀ p ∈ entries, 0 ≤ p.2)
    (hmem : (n, v) ∈ entries) (hv : v = (entries.map Prod.snd).sum) (hvpos : 0 < v) :
    ∃ res, donutSVG cosF sinF entries 15 9 = some res ∧
      res.paths = [⟨n, fullCircleD 15 9 15 15⟩] ∧
      fullCircleD 15 9 15 15 =
        [PathElem.str "M", PathElem.num 15, PathElem.num 0,
         PathElem.str "A", PathElem.num 15, PathElem.num 15, PathElem.num 0,
         PathElem.num 1, PathElem.num 1, PathElem.num (15 - 1/100), PathElem.num 0,
         PathElem.str "L", PathElem.num (15 - 1/100), PathElem.num 6,
         PathElem.str "A", PathElem.num 9, PathElem.num 9, PathElem.num 0,
         PathElem.num 1, PathElem.num 0, PathElem.num 15, PathElem.num 6] := by
  have hpos : 0 < (entries.map Prod.snd).sum := hv ▸ hvpos
  have hne : entries ≠ [] := by
    rintro rfl
    simp at hpos
  obtain ⟨x, xs, rfl⟩ := List.exists_cons_of_ne_nil hne
  rw [donutSVG_cons]
  have hcx : (15 : ℚ) * 2 / 2 = 15 := by norm_num
  rw [hcx]
  have hmain : donutLoop cosF sinF 15 9 15 15 (((x :: xs).map Prod.snd).sum) (x :: xs) 0 =
      segsOf cosF sinF 15 9 15 15 (((x :: xs).map Prod.snd).sum)
        ((x :: xs).filter fun p => decide (p.2 ≠ 0)) 0 :=
    donutLoop_eq_segsOf cosF sinF 15 9 15 15 _ hpos (x :: xs) 0 hnn le_rfl (by simp)
  refine ⟨_, rfl, ?_, by norm_num [fullCircleD]⟩
  dsimp only
  rw [hmain, filter_nonzero_singleton (x :: xs) n v hnn hmem hv hvpos, segsOf_cons]
  rw [if_pos (by rw [← hv]; exact div_self (ne_of_gt hvpos))]
  rfl

/-- Witness for C2: in the map `a ↦ 2, b ↦ 0` the category `a` holds the whole
sum, and the theorem instantiates at it. -/
theorem donutSVG_full_circle_witness :
    (∀ p ∈ [("a", (2:ℚ)), ("b", 0)], 0 ≤ p.2) ∧
    (("a", (2:ℚ)) ∈ [("a", (2:ℚ)), ("b", 0)]) ∧
    ((2:ℚ) = (([("a", (2:ℚ)), ("b", 0)].map Prod.snd).sum)) ∧
    (∃ res, donutSVG (fun _ => 0) (fun _ => 0) [("a", (2:ℚ)), ("b", 0)] 15 9 = some res ∧
      res.paths = [⟨"a", fullCircleD 15 9 15 15⟩] ∧
      fullCircleD 15 9 15 15 =
        [PathElem.str "M", PathElem.num 15, PathElem.num 0,
         PathElem.str "A", PathElem.num 15, PathElem.num 15, PathElem.num 0,
         PathElem.num 1, PathElem.num 1, PathElem.num (15 - 1/100), PathElem.num 0,
         PathElem.str "L", PathElem.num (15 - 1/100), PathElem.num 6,
         PathElem.str "A", PathElem.num 9, PathElem.num 9, PathElem.num 0,
         PathElem.num 1, PathElem.num 0, PathElem.num 15, PathElem.num 6]) :=
  ⟨by norm_num, by simp, by norm_num,
   donutSVG_full_circle (fun _ => 0) (fun _ => 0) [("a", 2), ("b", 0)] "a" 2
     (by norm_num) (by simp) (by norm_num) (by norm_num)⟩

/-- C3: `donutSVG` reduces the values with no initial accumulator, so it fails
on an empty map (`none`); on any non-empty map it is total and returns height
and width both `outerRadius * 2`; when every count is zero it returns an empty
`paths` list (every entry is skipped before the zero sum could be divided by);
and `renderCompletenessIndicator` — the only caller — never hands it an empty
map: it is total for every check-run list, returning the spinner when
`checkRuns` is empty. -/
theorem donutSVG_totality (cosF sinF : ℚ → ℚ) (outerRadius innerRadius : ℚ) :
    donutSVG cosF sinF [] outerRadius innerRadius = none
    ∧ (∀ entries : List (String × ℚ), entries ≠ [] →
        ∃ res, donutSVG cosF sinF entries outerRadius innerRadius = some res ∧
          res.height = outerRadius * 2 ∧ res.width = outerRadius * 2)
    ∧ (∀ entries : List (String × ℚ), entries ≠ [] → (∀ p ∈ entries, p.2 = 0) →
        ∃ res, donutSVG cosF sinF entries outerRadius innerRadius = some res ∧
          res.paths = [])
    ∧ (∀ (catOf : IRefCheck → String) (checkRuns : List IRefCheck),
        ∃ ind, CICheckRunPopover.renderCompletenessIndicator catOf cosF sinF checkRuns =
          some ind) := by
  refine ⟨rfl, ?_, ?_, ?_⟩
  · intro entries hne
    obtain ⟨x, xs, rfl⟩ := List.exists_cons_of_ne_nil hne
    rw [donutSVG_cons]
    exact ⟨_, rfl, rfl, rfl⟩
  · intro entries hne hzero
    obtain ⟨x, xs, rfl⟩ := List.exists_cons_of_ne_nil hne
    rw [donutSVG_cons]
    refine ⟨_, rfl, ?_⟩
    exact donutLoop_all_zero cosF sinF outerRadius innerRadius _ _ _ (x :: xs) hzero 0
  · intro catOf checkRuns
    unfold CICheckRunPopover.renderCompletenessIndicator
    by_cases hlen : checkRuns.length = 0
    · rw [if_pos hlen]
      exact ⟨_, rfl⟩
    · rw [if_neg hlen]
      by_cases hsucc :
          (!(checkRuns.any fun v =>
            decide (v.conclusion ≠ some APICheckConclusion.Success))) = true
      · simp only [hsucc, if_pos]
        exact ⟨_, rfl⟩
      · simp only [Bool.not_eq_true] at hsucc
        simp only [hsucc, Bool.false_eq_true, if_false]
        by_cases hfail :
            (!(checkRuns.any fun v =>
              decide (v.conclusion = none) ||
              !(decide (v.conclusion ∈
                [some APICheckConclusion.Failure, some APICheckConclusion.Canceled,
                 some APICheckConclusion.ActionRequired,
                 some APICheckConclusion.TimedOut])))) = true
        · simp only [hfail, if_pos]
          exact ⟨_, rfl⟩
        · simp only [Bool.not_eq_true] at hfail
          simp only [hfail, Bool.false_eq_true, if_false]
          have hne : checkRuns ≠ [] := fun h => hlen (by simp [h])
          have hcm := getCheckStatusCountMap_ne_nil catOf checkRuns hne
          obtain ⟨y, ys, hy⟩ :=
            List.exists_cons_of_ne_nil hcm
          rw [hy]
          simp only [List.map_cons]
          rw [donutSVG_cons]
          exact ⟨_, rfl⟩

/-- Witness for C3: the all-zero singleton map is non-empty with all counts
zero, and the theorem's all-zero branch instantiates at it. -/
theorem donutSVG_totality_witness :
    ∃ res, donutSVG (fun _ => 0) (fun _ => 0) [("a", (0:ℚ))] 15 9 = some res ∧
      res.paths = [] :=
  (donutSVG_totality (fun _ => 0) (fun _ => 0) 15 9).2.2.1 [("a", 0)] (by simp) (by simp)

/-! ## Claim theorems: the logs panel -/

lemma isNoAdditionalInfoToDisplay_iff (checkRun : IRefCheck) (output : IRefCheckOutput) :
    CICheckRunLogs.isNoAdditionalInfoToDisplay checkRun output = true ↔
      (checkRun.actionsWorkflowRunId = none
        ∧ output.type = RefCheckOutputType.Default
        ∧ (output.text = none ∨ ∃ t, output.text = some t ∧ t.trim = "")
        ∧ (output.summary = JSStrField.undef ∨ output.summary = JSStrField.null
            ∨ ∃ s, output.summary = JSStrField.val s ∧ s.trim = "")) := by
  unfold CICheckRunLogs.isNoAdditionalInfoToDisplay CICheckRunLogs.isNoOutputText
    CICheckRunLogs.hasActionsWorkflowLogs
  cases hw : checkRun.actionsWorkflowRunId <;>
    cases ht : output.text <;>
      cases hs : output.summary <;>
        simp [Bool.and_eq_true, beq_iff_eq, and_assoc]

/-- C4: with the workflow lookup no longer pending, `CICheckRunLogs` renders
the "No additional information to display." placeholder exactly when the check
run has no actions workflow run id, its output type is `Default`, its output
text is null or blank after trimming, and its output summary is null, undefined
or blank after trimming; in every other case the meta output is rendered in its
place. -/
theorem render_no_additional_info (props : CICheckRunLogs.ICICheckRunLogsProps)
    (hload : props.loadingActionWorkflows = false) :
    ((∃ out cls, CICheckRunLogs.render props =
        CICheckRunLogs.LogsRender.logs CICheckRunLogs.LogsContent.emptyLogOutput out cls) ↔
      (props.checkRun.actionsWorkflowRunId = none
        ∧ props.checkRun.output.type = RefCheckOutputType.Default
        ∧ (props.checkRun.output.text = none
            ∨ ∃ t, props.checkRun.output.text = some t ∧ t.trim = "")
        ∧ (props.checkRun.output.summary = JSStrField.undef
            ∨ props.checkRun.output.summary = JSStrField.null
            ∨ ∃ s, props.checkRun.output.summary = JSStrField.val s ∧ s.trim = "")))
    ∧ (CICheckRunLogs.isNoAdditionalInfoToDisplay props.checkRun props.checkRun.output
          = false →
        ∃ out cls, CICheckRunLogs.render props =
          CICheckRunLogs.LogsRender.logs
            (CICheckRunLogs.LogsContent.metaOutput
              (CICheckRunLogs.renderMetaOutput props.checkRun props.checkRun.output
                props.checkRun.name)) out cls) := by
  have hrender : CICheckRunLogs.render props =
      CICheckRunLogs.LogsRender.logs
        (if CICheckRunLogs.isNoAdditionalInfoToDisplay props.checkRun props.checkRun.output
         then CICheckRunLogs.LogsContent.emptyLogOutput
         else CICheckRunLogs.LogsContent.metaOutput
           (CICheckRunLogs.renderMetaOutput props.checkRun props.checkRun.output
             props.checkRun.name))
        (if CICheckRunLogs.hasActionsWorkflowLogs props.checkRun
         then CICheckRunLogs.LogsOutputView.actionsLogs props.loadingActionLogs
         else CICheckRunLogs.LogsOutputView.nonActions
           (CICheckRunLogs.renderNonActionsLogOutput props.checkRun.output))
        (CICheckRunLogs.hasActionsWorkflowLogs props.checkRun) := by
    unfold CICheckRunLogs.render
    rw [if_neg (by simp [hload])]
  constructor
  · rw [← isNoAdditionalInfoToDisplay_iff]
    constructor
    · rintro ⟨out, cls, heq⟩
      rw [hrender] at heq
      by_cases hb : CICheckRunLogs.isNoAdditionalInfoToDisplay props.checkRun
          props.checkRun.output = true
      · exact hb
      · rw [if_neg hb] at heq
        cases heq
    · intro hb
      rw [hrender, if_pos hb]
      exact ⟨_, _, rfl⟩
  · intro hb
    rw [hrender, if_neg (by simp [hb])]
    exact ⟨_, _, rfl⟩

/-- Witness for C4: a check run with no workflow id, `Default` output type and
null text and summary renders the placeholder once loading is over. -/
theorem render_no_additional_info_witness :
    ∃ out cls, CICheckRunLogs.render
        ⟨⟨"build", some APICheckConclusion.Success, none,
          ⟨RefCheckOutputType.Default, none, none, JSStrField.null⟩, none⟩, false, false⟩ =
      CICheckRunLogs.LogsRender.logs CICheckRunLogs.LogsContent.emptyLogOutput out cls :=
  (render_no_additional_info
    ⟨⟨"build", some APICheckConclusion.Success, none,
      ⟨RefCheckOutputType.Default, none, none, JSStrField.null⟩, none⟩, false, false⟩
    rfl).1.mpr (by simp)

/-! ## Claim theorems: component state and lifecycle -/

/-- C5: `onStatus` with a non-null combined check copies its checks list into
state and drops both loading flags to `false`; with `null` it empties the list
and raises both flags to `true`; in both cases the summary is recomputed from
the delivered value by `getCombinedCheckSummary`; and both flags start out
`true` in the constructor state. -/
theorem onStatus_state_update (adjOf : Option APICheckConclusion → String)
    (s : CICheckRunPopover.ICICheckRunPopoverState) :
    (∀ c : ICombinedRefCheck,
      CICheckRunPopover.onStatus adjOf (some c) s =
        { checkRuns := c.checks
          checkRunSummary := CICheckRunPopover.getCombinedCheckSummary adjOf (some c)
          loadingActionLogs := false
          loadingActionWorkflows := false })
    ∧ CICheckRunPopover.onStatus adjOf none s =
        { checkRuns := []
          checkRunSummary := CICheckRunPopover.getCombinedCheckSummary adjOf none
          loadingActionLogs := true
          loadingActionWorkflows := true }
    ∧ CICheckRunPopover.initialState.loadingActionLogs = true
    ∧ CICheckRunPopover.initialState.loadingActionWorkflows = true :=
  ⟨fun _ => rfl, rfl, rfl, rfl⟩

lemma unsubscribe_fst (c : CICheckRunPopover.PopoverComponent)
    (w : CICheckRunPopover.SubWorld) :
    (CICheckRunPopover.unsubscribe c w).1.statusSubscription = none := by
  cases hsub : c.statusSubscription <;> simp [CICheckRunPopover.unsubscribe, hsub]

lemma unsubscribe_active (c : CICheckRunPopover.PopoverComponent)
    (w : CICheckRunPopover.SubWorld)
    (hinv : w.active = c.statusSubscription.toList) :
    (CICheckRunPopover.unsubscribe c w).2.active = [] := by
  cases hsub : c.statusSubscription with
  | none =>
      rw [hsub] at hinv
      simp [CICheckRunPopover.unsubscribe, hsub, hinv]
  | some id =>
      rw [hsub] at hinv
      simp [CICheckRunPopover.unsubscribe, hsub,
        CICheckRunPopover.disposeSubscription, hinv]

lemma subscribe_subInv (pr : Nat) (c : CICheckRunPopover.PopoverComponent)
    (w : CICheckRunPopover.SubWorld)
    (hinv : w.active = c.statusSubscription.toList) :
    CICheckRunPopover.SubInv (CICheckRunPopover.subscribe pr c w) := by
  unfold CICheckRunPopover.subscribe CICheckRunPopover.subscribeToCommitStatus
    CICheckRunPopover.SubInv
  simp [unsubscribe_active c w hinv]

lemma subInv_preserved (adjOf : Option APICheckConclusion → String) (pr : Nat)
    (s t : CICheckRunPopover.PopoverComponent × CICheckRunPopover.SubWorld)
    (hinv : CICheckRunPopover.SubInv s)
    (hstep : CICheckRunPopover.PopoverStep adjOf pr s t) :
    CICheckRunPopover.SubInv t := by
  cases hstep with
  | mount res s =>
      unfold CICheckRunPopover.componentDidMount
      exact subscribe_subInv pr _ _ hinv
  | deliver s t h =>
      cases h with
      | mk res s hsome => exact hinv
  | unmount s =>
      unfold CICheckRunPopover.SubInv CICheckRunPopover.componentWillUnmount
      rw [unsubscribe_fst s.1 s.2,
        unsubscribe_active s.1 s.2 hinv]
      rfl

/-- C7: every state reachable through the mount / status-delivery / unmount
step relation satisfies the single-subscription invariant — the dispatcher
holds at most one live subscription to the component, the one stored in
`statusSubscription` — because `subscribe()` always disposes the previous
subscription via `unsubscribe()` before storing the new one. -/
theorem single_subscription_invariant (adjOf : Option APICheckConclusion → String)
    (pr : Nat) (s : CICheckRunPopover.PopoverComponent × CICheckRunPopover.SubWorld)
    (hreach : Relation.ReflTransGen (CICheckRunPopover.PopoverStep adjOf pr)
      (CICheckRunPopover.initialComponent, CICheckRunPopover.initialWorld) s) :
    CICheckRunPopover.SubInv s ∧ s.2.active.length ≤ 1 := by
  have hinv : CICheckRunPopover.SubInv s := by
    induction hreach with
    | refl => rfl
    | tail hsteps hstep ih => exact subInv_preserved adjOf pr _ _ ih hstep
  refine ⟨hinv, ?_⟩
  unfold CICheckRunPopover.SubInv at hinv
  rw [hinv]
  cases s.1.statusSubscription <;> simp

/-- Witness for C7: the freshly constructed component (no steps taken) is
reachable and satisfies the invariant. -/
theorem single_subscription_invariant_witness :
    CICheckRunPopover.SubInv
        (CICheckRunPopover.initialComponent, CICheckRunPopover.initialWorld)
    ∧ (CICheckRunPopover.initialComponent,
        CICheckRunPopover.initialWorld).2.active.length ≤ 1 :=
  single_subscription_invariant (fun _ => "") 1 _ Relation.ReflTransGen.refl

/-- C6: `componentWillUnmount` disposes the active subscription when one exists
and nulls the handle: afterwards `statusSubscription` is `none`, no live
subscription to the component remains (under the single-subscription
invariant), and no status-delivery step can fire from the torn-down state, so
no further status update can reach the component's state. -/
theorem componentWillUnmount_unsubscribes (adjOf : Option APICheckConclusion → String)
    (c : CICheckRunPopover.PopoverComponent) (w : CICheckRunPopover.SubWorld) :
    (CICheckRunPopover.componentWillUnmount c w).1.statusSubscription = none
    ∧ (CICheckRunPopover.SubInv (c, w) →
        (CICheckRunPopover.componentWillUnmount c w).2.active = [])
    ∧ ∀ s', ¬ CICheckRunPopover.DeliverStep adjOf
        (CICheckRunPopover.componentWillUnmount c w) s' := by
  refine ⟨unsubscribe_fst c w, fun hinv => unsubscribe_active c w hinv, ?_⟩
  intro s' h
  cases h with
  | mk res s hsome =>
      unfold CICheckRunPopover.componentWillUnmount at hsome
      rw [unsubscribe_fst c w] at hsome
      simp at hsome

/-- Witness for C6: tearing down a mounted component with one live subscription
disposes it. -/
theorem componentWillUnmount_unsubscribes_witness :
    (CICheckRunPopover.componentWillUnmount
      ⟨CICheckRunPopover.initialState, some 0⟩
      ⟨1, [0], []⟩).1.statusSubscription = none
    ∧ (CICheckRunPopover.componentWillUnmount
        ⟨CICheckRunPopover.initialState, some 0⟩
        ⟨1, [0], []⟩).2.active = [] := by
  have h := componentWillUnmount_unsubscribes (fun _ => "")
    ⟨CICheckRunPopover.initialState, some 0⟩ ⟨1, [0], []⟩
  exact ⟨h.1, h.2.1 rfl⟩

/-- C8: `componentDidMount` consults the dispatcher in a fixed order — a
synchronous `tryGetCommitStatus` for the commit ref `refs/pull/<pr>/head`,
whose result is applied through the same `onStatus` handler, followed by the
push subscription to commit status for the same ref. -/
theorem componentDidMount_order (adjOf : Option APICheckConclusion → String)
    (pr : Nat) (res : Option ICombinedRefCheck)
    (c : CICheckRunPopover.PopoverComponent) (w : CICheckRunPopover.SubWorld)
    (hfresh : c.statusSubscription = none) :
    (CICheckRunPopover.componentDidMount adjOf pr res c w).1.state =
        CICheckRunPopover.onStatus adjOf res c.state
    ∧ (CICheckRunPopover.componentDidMount adjOf pr res c w).2.calls =
        w.calls ++ [CICheckRunPopover.DispCall.tryGetCall (CICheckRunPopover.getCommitRef pr),
                    CICheckRunPopover.DispCall.subscribeCall (CICheckRunPopover.getCommitRef pr)]
    ∧ CICheckRunPopover.getCommitRef pr = "refs/pull/" ++ toString pr ++ "/head" := by
  refine ⟨?_, ?_, rfl⟩ <;>
    simp [CICheckRunPopover.componentDidMount, CICheckRunPopover.subscribe,
      CICheckRunPopover.unsubscribe, CICheckRunPopover.tryGetCommitStatus,
      CICheckRunPopover.subscribeToCommitStatus, hfresh]

/-- Witness for C8: mounting the freshly constructed component records the
lookup call before the subscription call. -/
theorem componentDidMount_order_witness :
    (CICheckRunPopover.componentDidMount (fun _ => "") 7 none
        CICheckRunPopover.initialComponent CICheckRunPopover.initialWorld).1.state =
      CICheckRunPopover.onStatus (fun _ => "") none
        CICheckRunPopover.initialComponent.state
    ∧ (CICheckRunPopover.componentDidMount (fun _ => "") 7 none
        CICheckRunPopover.initialComponent CICheckRunPopover.initialWorld).2.calls =
        CICheckRunPopover.initialWorld.calls ++
          [CICheckRunPopover.DispCall.tryGetCall (CICheckRunPopover.getCommitRef 7),
           CICheckRunPopover.DispCall.subscribeCall (CICheckRunPopover.getCommitRef 7)]
    ∧ CICheckRunPopover.getCommitRef 7 = "refs/pull/" ++ toString 7 ++ "/head" :=
  componentDidMount_order (fun _ => "") 7 none
    CICheckRunPopover.initialComponent CICheckRunPopover.initialWorld rfl

/-! ## Claim theorems: opening check details -/

/-- C10: `onViewCheckDetails` opens the check run's `htmlUrl` when non-null,
falls back to `<repository.htmlURL>/pull/<prNumber>` when only the repository
URL is available, returns without opening anything when both are null, and a
browser open is requested precisely when at least one URL is available. -/
theorem onViewCheckDetails_url (repositoryHtmlURL : Option String) (prNumber : Nat)
    (checkRun : IRefCheck) :
    (∀ u, checkRun.htmlUrl = some u →
      CICheckRunPopover.onViewCheckDetails repositoryHtmlURL prNumber checkRun = some u)
    ∧ (checkRun.htmlUrl = none → ∀ r, repositoryHtmlURL = some r →
        CICheckRunPopover.onViewCheckDetails repositoryHtmlURL prNumber checkRun =
          some (r ++ "/pull/" ++ toString prNumber))
    ∧ (checkRun.htmlUrl = none → repositoryHtmlURL = none →
        CICheckRunPopover.onViewCheckDetails repositoryHtmlURL prNumber checkRun = none)
    ∧ ((CICheckRunPopover.onViewCheckDetails repositoryHtmlURL prNumber checkRun).isSome
        ↔ (checkRun.htmlUrl.isSome ∨ repositoryHtmlURL.isSome)) := by
  unfold CICheckRunPopover.onViewCheckDetails
  cases hu : checkRun.htmlUrl <;> cases hr : repositoryHtmlURL <;>
    simp [hu, hr]

/-- Witness for C10: a check run with no `htmlUrl` in a repository with an
`htmlURL` opens the pull-request fallback URL. -/
theorem onViewCheckDetails_url_witness :
    CICheckRunPopover.onViewCheckDetails (some "https://example.test/o/r") 5
        ⟨"n", none, none,
          ⟨RefCheckOutputType.Default, none, none, JSStrField.null⟩, none⟩ =
      some ("https://example.test/o/r" ++ "/pull/" ++ toString 5) :=
  (onViewCheckDetails_url (some "https://example.test/o/r") 5
    ⟨"n", none, none,
      ⟨RefCheckOutputType.Default, none, none, JSStrField.null⟩, none⟩).2.1
    rfl "https://example.test/o/r" rfl

/-! ## Lemmas about the JS Map counting idiom -/

lemma mapGet_cons {α : Type} (p : String × α) (m : List (String × α)) (k : String) :
    mapGet (p :: m) k = if p.1 = k then some p.2 else mapGet m k := by
  by_cases h : p.1 = k
  · rw [if_pos h]
    unfold mapGet
    rw [List.find?_cons_of_pos _ (by simp [h])]
    rfl
  · rw [if_neg h]
    unfold mapGet
    rw [List.find?_cons_of_neg _ (by simp [h])]

lemma anyKey_iff {α : Type} (m : List (String × α)) (k : String) :
    (m.any fun p => p.1 == k) = true ↔ k ∈ m.map Prod.fst := by
  simp only [List.any_eq_true, List.mem_map, beq_iff_eq]

lemma mapSet_keys {α : Type} (m : List (String × α)) (k : String) (v : α) :
    (mapSet m k v).map Prod.fst =
      if k ∈ m.map Prod.fst then m.map Prod.fst else m.map Prod.fst ++ [k] := by
  unfold mapSet
  by_cases h : (m.any fun p => p.1 == k) = true
  · rw [if_pos h, if_pos ((anyKey_iff m k).mp h)]
    rw [List.map_map]
    refine List.map_congr_left ?_
    intro p _
    by_cases hpk : p.1 = k
    · simp [hpk]
    · simp [hpk]
  · rw [if_neg h, if_neg (fun hmem => h ((anyKey_iff m k).mpr hmem))]
    simp

lemma mapGet_mapSet_self {α : Type} (m : List (String × α)) (k : String) (v : α) :
    mapGet (mapSet m k v) k = some v := by
  induction m with
  | nil => simp [mapSet, mapGet]
  | cons p m ih =>
      unfold mapSet
      by_cases hany : ((p :: m).any fun q => q.1 == k) = true
      · rw [if_pos hany, List.map_cons]
        by_cases hpk : p.1 = k
        · rw [if_pos (by simp [hpk]), mapGet_cons, if_pos rfl]
        · rw [if_neg (by simp [hpk]), mapGet_cons, if_neg hpk]
          have hany' : (m.any fun q => q.1 == k) = true := by
            rw [List.any_cons] at hany
            simpa [hpk] using hany
          have := ih
          rw [mapSet, if_pos hany'] at this
          exact this
      · rw [if_neg hany]
        have hsplit : ¬ p.1 = k ∧ ¬ (m.any fun q => q.1 == k) = true := by
          rw [List.any_cons] at hany
          simpa using hany
        have htail := ih
        rw [mapSet, if_neg hsplit.2] at htail
        calc mapGet ((p :: m) ++ [(k, v)]) k
            = mapGet (m ++ [(k, v)]) k := by
              rw [List.cons_append, mapGet_cons, if_neg hsplit.1]
          _ = some v := htail

lemma mapGet_mapSet_ne {α : Type} (m : List (String × α)) (k k' : String) (v : α)
    (h : k' ≠ k) : mapGet (mapSet m k v) k' = mapGet m k' := by
  have hsymm : ¬ k = k' := fun hh => h hh.symm
  induction m with
  | nil =>
      simp [mapSet, mapGet_cons, mapGet, hsymm]
  | cons p m ih =>
      unfold mapSet
      by_cases hany : ((p :: m).any fun q => q.1 == k) = true
      · rw [if_pos hany, List.map_cons]
        by_cases hpk : p.1 = k
        · rw [if_pos (by simp [hpk]), mapGet_cons, mapGet_cons,
            if_neg hsymm, if_neg (by rw [hpk]; exact hsymm)]
          by_cases hany' : (m.any fun q => q.1 == k) = true
          · have := ih
            rw [mapSet, if_pos hany'] at this
            exact this
          · have hmap : (m.map fun q => if (q.1 == k) = true then (k, v) else q) =
                m.map id := by
              refine List.map_congr_left ?_
              intro q hq
              have hqk : ¬ (q.1 == k) = true :=
                fun hqk => hany' (List.any_eq_true.mpr ⟨q, hq, hqk⟩)
              simp [hqk]
            rw [hmap, List.map_id]
        · rw [if_neg (by simp [hpk]), mapGet_cons, mapGet_cons]
          by_cases hpk' : p.1 = k'
          · rw [if_pos hpk', if_pos hpk']
          · rw [if_neg hpk', if_neg hpk']
            by_cases hany' : (m.any fun q => q.1 == k) = true
            · have := ih
              rw [mapSet, if_pos hany'] at this
              exact this
            · exfalso
              rw [List.any_cons] at hany
              exact hany' (by simpa [hpk] using hany)
      · rw [if_neg hany, List.cons_append, mapGet_cons, mapGet_cons]
        by_cases hpk' : p.1 = k'
        · rw [if_pos hpk', if_pos hpk']
        · rw [if_neg hpk', if_neg hpk']
          have hsplit : ¬ (m.any fun q => q.1 == k) = true := by
            rw [List.any_cons] at hany
            exact fun hh => hany (by simp [hh])
          have := ih
          rw [mapSet, if_neg hsplit] at this
          exact this

lemma bumpKey_keys (m : List (String × Nat)) (k : String) :
    (bumpKey m k).map Prod.fst =
      if k ∈ m.map Prod.fst then m.map Prod.fst else m.map Prod.fst ++ [k] :=
  mapSet_keys m k _

lemma bumpKey_getD_self (m : List (String × Nat)) (k : String) :
    (mapGet (bumpKey m k) k).getD 0 = (mapGet m k).getD 0 + 1 := by
  unfold bumpKey
  rw [mapGet_mapSet_self]
  rfl

lemma bumpKey_getD_ne (m : List (String × Nat)) (k k' : String) (h : k' ≠ k) :
    mapGet (bumpKey m k) k' = mapGet m k' :=
  mapGet_mapSet_ne m k k' _ h

lemma dedupAcc_cons (seen : List String) (a : String) (l : List String) :
    dedupAcc seen (a :: l) =
      if a ∈ seen then dedupAcc seen l else a :: dedupAcc (seen ++ [a]) l := rfl

lemma foldl_bumpKey_keys (l : List String) (m : List (String × Nat)) :
    (l.foldl bumpKey m).map Prod.fst = m.map Prod.fst ++ dedupAcc (m.map Prod.fst) l := by
  induction l generalizing m with
  | nil => simp [dedupAcc]
  | cons a l ih =>
      rw [List.foldl_cons, ih (bumpKey m a), bumpKey_keys, dedupAcc_cons]
      by_cases h : a ∈ m.map Prod.fst
      · rw [if_pos h, if_pos h]
      · rw [if_neg h, if_neg h]
        simp

lemma foldl_bumpKey_getD (l : List String) (m : List (String × Nat)) (k : String) :
    (mapGet (l.foldl bumpKey m) k).getD 0 = (mapGet m k).getD 0 + l.count k := by
  induction l generalizing m with
  | nil => simp
  | cons a l ih =>
      rw [List.foldl_cons, ih (bumpKey m a)]
      by_cases h : k = a
      · subst h
        rw [bumpKey_getD_self]
        have hc : (k :: l).count k = l.count k + 1 := by simp [List.count_cons]
        rw [hc]
        omega
      · rw [bumpKey_getD_ne m a k h]
        have hc : (a :: l).count k = l.count k := by simp [List.count_cons, h]
        rw [hc]

lemma dedupAcc_of_subset (l : List String) : ∀ seen, (∀ x ∈ l, x ∈ seen) →
    dedupAcc seen l = [] := by
  induction l with
  | nil => intro seen _; rfl
  | cons a l ih =>
      intro seen h
      rw [dedupAcc_cons, if_pos (h a (List.mem_cons_self _ _))]
      exact ih seen (fun x hx => h x (List.mem_cons_of_mem _ hx))

lemma dedupAcc_all_eq (a : String) (l : List String) (h : ∀ x ∈ l, x = a)
    (hne : l ≠ []) : dedupAcc [] l = [a] := by
  obtain ⟨b, rest, rfl⟩ := List.exists_cons_of_ne_nil hne
  have hb : b = a := h b (List.mem_cons_self _ _)
  subst hb
  rw [dedupAcc_cons, if_neg (by simp)]
  rw [dedupAcc_of_subset rest ([] ++ [b])
    (fun x hx => by simp [h x (List.mem_cons_of_mem _ hx)])]

lemma dedupAcc_nodup_disjoint (l : List String) : ∀ seen,
    (dedupAcc seen l).Nodup ∧ ∀ x ∈ dedupAcc seen l, x ∉ seen := by
  induction l with
  | nil => intro seen; simp [dedupAcc]
  | cons a l ih =>
      intro seen
      rw [dedupAcc_cons]
      by_cases h : a ∈ seen
      · rw [if_pos h]
        exact ih seen
      · rw [if_neg h]
        obtain ⟨hnd, hnotin⟩ := ih (seen ++ [a])
        refine ⟨List.nodup_cons.mpr ⟨fun hmem => hnotin a hmem (by simp), hnd⟩, ?_⟩
        intro x hx
        rcases List.mem_cons.mp hx with rfl | hx'
        · exact h
        · intro hxs
          exact hnotin x hx' (by simp [hxs])

lemma mapGet_of_mem_nodup {α : Type} (m : List (String × α)) (p : String × α)
    (hnd : (m.map Prod.fst).Nodup) (hmem : p ∈ m) : mapGet m p.1 = some p.2 := by
  induction m with
  | nil => cases hmem
  | cons q m ih =>
      rw [mapGet_cons]
      rcases List.mem_cons.mp hmem with rfl | hmem'
      · rw [if_pos rfl]
      · have hq : ¬ q.1 = p.1 := by
          intro hq
          have : p.1 ∈ m.map Prod.fst := List.mem_map.mpr ⟨p, hmem', rfl⟩
          rw [List.map_cons, List.nodup_cons] at hnd
          exact hnd.1 (hq ▸ this)
        rw [if_neg hq]
        exact ih (by rw [List.map_cons, List.nodup_cons] at hnd; exact hnd.2) hmem'

lemma intercalate_drop_last (l : List String) (hne : l ≠ []) :
    String.intercalate "," (l.drop (l.length - 1)) = l.getLast?.getD "" := by
  induction l with
  | nil => cases hne rfl
  | cons a rest ih =>
      cases rest with
      | nil => rfl
      | cons b r =>
          have hlen : (a :: b :: r).length - 1 = (b :: r).length - 1 + 1 := by
            simp
          rw [hlen, List.drop_succ_cons]
          rw [ih (by simp)]
          rfl

/-! ## Claim theorems: the combined check summary -/

lemma conclusionCounts_eq_foldl (adjOf : Option APICheckConclusion → String)
    (checks : List IRefCheck) :
    CICheckRunPopover.conclusionCounts adjOf checks =
      (checks.map fun ch => adjOf ch.conclusion).foldl bumpKey [] := by
  unfold CICheckRunPopover.conclusionCounts
  rw [List.foldl_map]

lemma conclusionCounts_keys (adjOf : Option APICheckConclusion → String)
    (checks : List IRefCheck) :
    (CICheckRunPopover.conclusionCounts adjOf checks).map Prod.fst =
      dedupAcc [] (checks.map fun ch => adjOf ch.conclusion) := by
  rw [conclusionCounts_eq_foldl, foldl_bumpKey_keys]
  simp

lemma conclusionCounts_counts (adjOf : Option APICheckConclusion → String)
    (checks : List IRefCheck) (p : String × Nat)
    (hp : p ∈ CICheckRunPopover.conclusionCounts adjOf checks) :
    p.2 = (checks.map fun ch => adjOf ch.conclusion).count p.1 := by
  have hnd : ((CICheckRunPopover.conclusionCounts adjOf checks).map Prod.fst).Nodup := by
    rw [conclusionCounts_keys]
    exact (dedupAcc_nodup_disjoint _ []).1
  have hget := mapGet_of_mem_nodup _ p hnd hp
  have hfold := foldl_bumpKey_getD (checks.map fun ch => adjOf ch.conclusion) [] p.1
  rw [← conclusionCounts_eq_foldl, hget] at hfold
  simpa [mapGet] using hfold

lemma count_all_eq (a : String) (l : List String) (h : ∀ x ∈ l, x = a) :
    l.count a = l.length := by
  induction l with
  | nil => rfl
  | cons b rest ih =>
      have hb : b = a := h b (List.mem_cons_self _ _)
      subst hb
      have hc : (b :: rest).count b = rest.count b + 1 := by simp [List.count_cons]
      rw [hc, ih (fun x hx => h x (List.mem_cons_of_mem _ hx))]
      simp

lemma conclusionCounts_single (adjOf : Option APICheckConclusion → String)
    (checks : List IRefCheck) (a : String) (hne : checks ≠ [])
    (hall : ∀ ch ∈ checks, adjOf ch.conclusion = a) :
    CICheckRunPopover.conclusionCounts adjOf checks = [(a, checks.length)] := by
  have hkeys : (CICheckRunPopover.conclusionCounts adjOf checks).map Prod.fst = [a] := by
    rw [conclusionCounts_keys]
    refine dedupAcc_all_eq a _ ?_ (by simpa using hne)
    intro x hx
    obtain ⟨ch, hch, rfl⟩ := List.mem_map.mp hx
    exact hall ch hch
  obtain ⟨n, hcc⟩ : ∃ n, CICheckRunPopover.conclusionCounts adjOf checks = [(a, n)] := by
    cases hc : CICheckRunPopover.conclusionCounts adjOf checks with
    | nil => rw [hc] at hkeys; cases hkeys
    | cons q rest =>
        cases rest with
        | nil =>
            rw [hc] at hkeys
            simp at hkeys
            exact ⟨q.2, by rw [← hkeys]⟩
        | cons r rs =>
            rw [hc] at hkeys
            simp at hkeys
  have hcount := conclusionCounts_counts adjOf checks (a, n)
    (by rw [hcc]; exact List.mem_singleton.mpr rfl)
  have hlen : (checks.map fun ch => adjOf ch.conclusion).count a =
      (checks.map fun ch => adjOf ch.conclusion).length := by
    refine count_all_eq a _ ?_
    intro x hx
    obtain ⟨ch, hch, rfl⟩ := List.mem_map.mp hx
    exact hall ch hch
  rw [hcc]
  have hn : n = checks.length := by
    have := hcount
    simp only [hlen, List.length_map] at this
    exact this
  rw [hn]

lemma getCombinedCheckSummary_some (adjOf : Option APICheckConclusion → String)
    (cc : ICombinedRefCheck) :
    CICheckRunPopover.getCombinedCheckSummary adjOf (some cc) =
      if cc.checks.length = 0 then ""
      else
        if 1 < (CICheckRunPopover.conclusionCounts adjOf cc.checks).length then
          String.intercalate ", "
            (((CICheckRunPopover.conclusionCounts adjOf cc.checks).map
              (fun p => toString p.2 ++ " " ++ p.1)).dropLast)
          ++ ", and " ++
          String.intercalate ","
            (((CICheckRunPopover.conclusionCounts adjOf cc.checks).map
              (fun p => toString p.2 ++ " " ++ p.1)).drop
                ((((CICheckRunPopover.conclusionCounts adjOf cc.checks).map
                  (fun p => toString p.2 ++ " " ++ p.1)).length) - 1))
          ++ " checks"
        else
          match CICheckRunPopover.conclusionCounts adjOf cc.checks with
          | [] => ""
          | p :: _ =>
              toString p.2 ++ " " ++ p.1 ++ " " ++
                (if 1 < p.2 then "checks" else "check") := rfl

/-- C9: `getCombinedCheckSummary` returns `""` for a null combined check or an
empty checks list; when all checks share one conclusion adjective it returns
`"<count> <adjective> check"` with `"check"` pluralised exactly when the count
exceeds 1; and when several adjectives occur, the conclusion map groups the
checks by adjective in first-occurrence order with their multiplicities, and
the summary joins the `"<count> <adjective>"` items with `", "`, puts
`", and "` before the last item, and appends `" checks"` regardless of the
final group's count. -/
theorem getCombinedCheckSummary_format (adjOf : Option APICheckConclusion → String) :
    CICheckRunPopover.getCombinedCheckSummary adjOf none = ""
    ∧ (∀ cc : ICombinedRefCheck, cc.checks = [] →
        CICheckRunPopover.getCombinedCheckSummary adjOf (some cc) = "")
    ∧ (∀ (cc : ICombinedRefCheck) (a : String), cc.checks ≠ [] →
        (∀ ch ∈ cc.checks, adjOf ch.conclusion = a) →
        CICheckRunPopover.getCombinedCheckSummary adjOf (some cc) =
          toString cc.checks.length ++ " " ++ a ++ " " ++
            (if 1 < cc.checks.length then "checks" else "check"))
    ∧ (∀ cc : ICombinedRefCheck,
        (CICheckRunPopover.conclusionCounts adjOf cc.checks).map Prod.fst =
          dedupAcc [] (cc.checks.map fun ch => adjOf ch.conclusion)
        ∧ (∀ p ∈ CICheckRunPopover.conclusionCounts adjOf cc.checks,
            p.2 = (cc.checks.map fun ch => adjOf ch.conclusion).count p.1)
        ∧ (1 < (CICheckRunPopover.conclusionCounts adjOf cc.checks).length →
            CICheckRunPopover.getCombinedCheckSummary adjOf (some cc) =
              String.intercalate ", "
                (((CICheckRunPopover.conclusionCounts adjOf cc.checks).map
                  (fun p => toString p.2 ++ " " ++ p.1)).dropLast)
              ++ ", and " ++
              (((CICheckRunPopover.conclusionCounts adjOf cc.checks).map
                (fun p => toString p.2 ++ " " ++ p.1)).getLast?.getD "")
              ++ " checks")) := by
  refine ⟨rfl, ?_, ?_, ?_⟩
  · intro cc h
    simp [CICheckRunPopover.getCombinedCheckSummary, h]
  · intro cc a hne hall
    have hcc := conclusionCounts_single adjOf cc.checks a hne hall
    rw [getCombinedCheckSummary_some,
      if_neg (fun h => hne (List.length_eq_zero.mp h)), hcc,
      if_neg (by simp)]
  · intro cc
    refine ⟨conclusionCounts_keys adjOf cc.checks,
      fun p hp => conclusionCounts_counts adjOf cc.checks p hp, ?_⟩
    intro hlen
    have hne : cc.checks ≠ [] := by
      intro h
      rw [h] at hlen
      simp [CICheckRunPopover.conclusionCounts] at hlen
    have hout_ne :
        ((CICheckRunPopover.conclusionCounts adjOf cc.checks).map
          (fun p => toString p.2 ++ " " ++ p.1)) ≠ [] := by
      intro h
      rw [← List.length_eq_zero, List.length_map] at h
      omega
    rw [getCombinedCheckSummary_some,
      if_neg (fun h => hne (List.length_eq_zero.mp h)), if_pos hlen,
      intercalate_drop_last _ hout_ne]

/-- Witness for C9: two checks sharing one adjective produce the pluralised
single-group summary. -/
theorem getCombinedCheckSummary_format_witness :
    CICheckRunPopover.getCombinedCheckSummary (fun _ => "s")
        (some ⟨[⟨"a", some APICheckConclusion.Success, none,
                 ⟨RefCheckOutputType.Default, none, none, JSStrField.null⟩, none⟩,
               ⟨"b", some APICheckConclusion.Failure, none,
                 ⟨RefCheckOutputType.Default, none, none, JSStrField.null⟩, none⟩]⟩) =
      toString (⟨[⟨"a", some APICheckConclusion.Success, none,
                   ⟨RefCheckOutputType.Default, none, none, JSStrField.null⟩, none⟩,
                 ⟨"b", some APICheckConclusion.Failure, none,
                   ⟨RefCheckOutputType.Default, none, none, JSStrField.null⟩, none⟩]⟩ :
          ICombinedRefCheck).checks.length ++ " " ++ "s" ++ " " ++
        (if 1 < (⟨[⟨"a", some APICheckConclusion.Success, none,
                    ⟨RefCheckOutputType.Default, none, none, JSStrField.null⟩, none⟩,
                  ⟨"b", some APICheckConclusion.Failure, none,
                    ⟨RefCheckOutputType.Default, none, none, JSStrField.null⟩, none⟩]⟩ :
            ICombinedRefCheck).checks.length then "checks" else "check") :=
  (getCombinedCheckSummary_format (fun _ => "s")).2.2.1 _ "s" (by simp) (fun _ _ => rfl)

end Desktop
